import Mathlib

/-!
Verification of the pipeline-execution and source-validation components of
the adasOpportunityAgent repository.

The Python modules are shallowly embedded as executable Lean functions:

* `src/utils/source_validator.py`  → namespace `SourceValidator`
* `src/sources/source_rules.py`    → namespace `SourceRules`
* `src/utils/archive_manager.py`   → namespace `ArchiveManager`
* `src/orchestrator/master_agent.py` → namespace `Master`

Python dicts that are built key by key are modelled as association lists
(`List (String × α)`) with first-match lookup and replace-or-append
assignment, matching insertion-order dict semantics. Python exceptions are
modelled with `Except String`. Filesystem effects (writing a result file,
moving archives) are modelled as explicit state: the list of files a run
has written, and the lists of files present in the output directories.
-/

namespace Adas

/-! ## Dict and string helpers shared by all embeddings -/

/-- First-match lookup in an association list: `d[k]` / `k in d`. -/
def getKey {α : Type} : List (String × α) → String → Option α
  | [], _ => none
  | kv :: t, k => if kv.1 = k then some kv.2 else getKey t k

/-- Dict assignment `d[k] = v`: replace the first binding of `k`, or append. -/
def setKey {α : Type} : List (String × α) → String → α → List (String × α)
  | [], k, v => [(k, v)]
  | kv :: t, k, v => if kv.1 = k then (k, v) :: t else kv :: setKey t k v

/-- ASCII lowercasing, modelling Python's `str.lower()` on the ASCII
domain names and URLs this code handles. -/
def strLower (s : String) : String := ⟨s.data.map Char.toLower⟩

/-- Substring occurrence on character lists (Python's `pat in hay`). -/
def occursIn (pat : List Char) : List Char → Bool
  | [] => pat.isEmpty
  | c :: t => pat.isPrefixOf (c :: t) || occursIn pat t

/-- Python's `pat in hay` for strings. -/
def containsSub (hay pat : String) : Bool := occursIn pat.data hay.data

/-- Python's `field not in citation or not citation[field]`: the key is
absent, or its value is falsy (the empty string). -/
def blankField (c : List (String × String)) (f : String) : Bool :=
  match getKey c f with
  | none => true
  | some s => s.isEmpty

/-! ## SourceValidator (src/utils/source_validator.py) -/

namespace SourceValidator

/-- `ALLOWED_DOMAINS` exactly as the Python list literal evaluates. The
source writes `'amd.com'` and `'tesla.com'` as adjacent string literals
with no comma between them (a comment line separates them), so Python's
implicit literal concatenation produces the single entry
`"amd.comtesla.com"`; the list has 17 entries, not 18. -/
def ALLOWED_DOMAINS : List String := [
  "ieee.org", "arxiv.org", "acm.org", "sae.org",
  "jpmorgan.com", "goldmansachs.com", "morganstanley.com",
  "ti.com", "nxp.com", "infineon.com", "qualcomm.com", "nvidia.com", "intel.com",
  "amd.comtesla.com",
  "gm.com", "ford.com", "rivian.com"]

/-- `EXCLUDED_PATTERNS`, written here as the literal text each regex
matches: every pattern in the source is a literal string with at most an
escaped dot (`blog\.` matches the text `blog.`), so `re.search` with
`re.IGNORECASE` is containment of the literal in the lowercased URL. -/
def EXCLUDED_PATTERNS : List String := [
  "blog.", "/blog/", "medium.com", "linkedin.com/pulse",
  "twitter.com", "facebook.com"]

/-- Case-insensitive search of a (lowercase-literal) pattern in a URL:
`re.search(pattern, url, re.IGNORECASE)` for the patterns above. -/
def reSearchIC (pattern url : String) : Bool := containsSub (strLower url) pattern

/-- `SourceValidator.validate_url`: excluded patterns are checked first and
return immediately; then allowed domains by `domain in url.lower()`; else
`(False, "Domain not allowed list")`. -/
def validate_url (url : String) : Bool × String :=
  match EXCLUDED_PATTERNS.find? (fun pattern => reSearchIC pattern url) with
  | some pattern => (false, "Matches excluded pattern: " ++ pattern)
  | none =>
    match ALLOWED_DOMAINS.find? (fun domain => containsSub (strLower url) domain) with
    | some domain => (true, "Matches allowed domain: " ++ domain)
    | none => (false, "Domain not allowed list")

/-- Result dict of `SourceValidator.validate_citation`. -/
structure CitationValidation where
  valid : Bool
  missing_fields : List String
  url_valid : Bool
  url_reason : String
  deriving Repr, DecidableEq

/-- The required-fields loop of `validate_citation`: for each field of
`['source', 'url', 'date_accessed', 'claim ']` (note the trailing space in
the last literal, as in the source), a missing-or-falsy field flips
`valid` to `False` and is appended to `missing_fields`. -/
def checkRequired (citation : List (String × String)) : Bool × List String :=
  ["source", "url", "date_accessed", "claim "].foldl
    (fun acc f => if blankField citation f then (false, acc.2 ++ [f]) else acc)
    (true, [])

/-- `SourceValidator.validate_citation`: run the required-fields loop, then
if the key `'url'` is present (even with a falsy value) validate the URL
and conjoin its verdict into `valid`. -/
def validate_citation (citation : List (String × String)) : CitationValidation :=
  let req := checkRequired citation
  let r1 : CitationValidation :=
    { valid := req.1, missing_fields := req.2, url_valid := true, url_reason := "" }
  match getKey citation "url" with
  | some u =>
    let uv := validate_url u
    { r1 with url_valid := uv.1, url_reason := uv.2,
              valid := r1.valid && uv.1 }
  | none => r1

end SourceValidator

/-! ## SourceRules (src/sources/source_rules.py) -/

namespace SourceRules

/-- One entry of the `academic` / `financial_research` sections of
`allowed_sources.json`: a source name mapped to its domains and a
credibility tier. The configuration file itself is loaded at runtime and
is not part of the repository, so the rules engine is verified for every
configuration value. -/
structure SourceEntry where
  domains : List String
  credibility : String
  deriving Repr, DecidableEq

/-- The loaded configuration dict (`self.config`), with the top-level keys
the code reads: `academic`, `financial_research`,
`industry.semiconductor_vendors`, `industry.oems`, `industry.tier1`, and
`excluded_patterns`. -/
structure Config where
  academic : List (String × SourceEntry)
  financial_research : List (String × SourceEntry)
  semiconductor_vendors : List (String × List String)
  oems : List (String × List String)
  tier1 : List (String × List String)
  excluded_patterns : List String
  deriving Repr, DecidableEq

/-- One category's nested loop of `is_allowed_domain`: the first source
name whose domain list has a member contained in the lowercased URL. -/
def findSource (entries : List (String × List String)) (u : String) : Option String :=
  (entries.find? (fun e => e.2.any (fun domain => containsSub u domain))).map (·.1)

/-- `SourceRules.is_allowed_domain`: categories are tried in the fixed
source order academic, financial research, semiconductor vendors, OEMs,
tier-1; the first match wins. -/
def is_allowed_domain (cfg : Config) (url : String) : Bool × String × String :=
  let u := strLower url
  match findSource (cfg.academic.map (fun e => (e.1, e.2.domains))) u with
  | some name => (true, "academic", name)
  | none =>
    match findSource (cfg.financial_research.map (fun e => (e.1, e.2.domains))) u with
    | some name => (true, "financial_research", name)
    | none =>
      match findSource cfg.semiconductor_vendors u with
      | some vendor => (true, "semiconductor_vendor", vendor)
      | none =>
        match findSource cfg.oems u with
        | some oem => (true, "oem", oem)
        | none =>
          match findSource cfg.tier1 u with
          | some tier1 => (true, "tier1", tier1)
          | none => (false, "", "")

/-- `SourceRules.is_excluded`: first configured pattern contained in the
lowercased URL (plain substring containment, no regex here). -/
def is_excluded (cfg : Config) (url : String) : Bool × String :=
  match cfg.excluded_patterns.find? (fun pattern => containsSub (strLower url) pattern) with
  | some pattern => (true, pattern)
  | none => (false, "")

/-- Result dict of `SourceRules.validate_citation`. -/
structure RulesValidation where
  valid : Bool
  errors : List String
  warnings : List String
  source_category : String
  source_name : String
  credibility : String
  deriving Repr, DecidableEq

/-- Credibility lookup `self.config[category][source]['credibility']`;
the source name always comes from a successful find, so the key is
present and the default is never reached. -/
def lookupCredibility (entries : List (String × SourceEntry)) (source : String) : String :=
  ((getKey entries source).map (·.credibility)).getD ""

/-- `SourceRules.validate_citation`: missing URL, an exclusion match, or
no allow-list match each return early with `valid = False` and one error;
otherwise the citation is valid, credibility is attached, and missing
`claim` / `date_accessed` fields only append warnings. -/
def validate_citation (cfg : Config) (citation : List (String × String)) : RulesValidation :=
  let base : RulesValidation :=
    { valid := true, errors := [], warnings := [],
      source_category := "", source_name := "", credibility := "" }
  if blankField citation "url" then
    { base with valid := false, errors := ["Missing URL"] }
  else
    let url := (getKey citation "url").getD ""
    let excl := is_excluded cfg url
    if excl.1 then
      { base with valid := false, errors := ["Excluded pattern: " ++ excl.2] }
    else
      let allowed := is_allowed_domain cfg url
      if allowed.1 = false then
        { base with valid := false, errors := ["Domain not in allowed list"] }
      else
        let credibility :=
          if allowed.2.1 = "academic" then lookupCredibility cfg.academic allowed.2.2
          else if allowed.2.1 = "financial_research" then
            lookupCredibility cfg.financial_research allowed.2.2
          else "medium"
        { valid := true, errors := [],
          warnings := (["claim", "date_accessed"].filter
              (fun f => blankField citation f)).map
            (fun f => "Missing recommended field: " ++ f),
          source_category := allowed.2.1, source_name := allowed.2.2,
          credibility := credibility }

end SourceRules

/-! ## ArchiveManager (src/utils/archive_manager.py) -/

namespace ArchiveManager

/-- The outputs directory tree the manager mutates: the `*.json` files of
`outputs/reports`, the `*.png` files of `outputs/visualizations`, and the
archive folders, each holding the reports and visualizations moved into
it. -/
structure OutputsState where
  report_json_files : List String
  viz_png_files : List String
  archives : List (String × List String × List String)
  deriving Repr, DecidableEq

/-- `ArchiveManager.archive_previous_run`: when both globs are empty the
function logs and returns `None` without touching the tree; otherwise it
creates `run_{timestamp}` under the archives directory and moves every
report and visualization into it. -/
def archive_previous_run (s : OutputsState) (run_timestamp : String) :
    Option String × OutputsState :=
  let archive_folder := "run_" ++ run_timestamp
  if s.report_json_files.isEmpty && s.viz_png_files.isEmpty then
    (none, s)
  else
    (some archive_folder,
     { report_json_files := [],
       viz_png_files := [],
       archives := s.archives
         ++ [(archive_folder, s.report_json_files, s.viz_png_files)] })

/-- `ArchiveManager.clean_old_archives`, as a function of the sorted
directory listing `sorted(archives_dir.glob("run_*"))` (oldest first,
since the `run_{YYYYMMDD_HHMMSS}` names sort chronologically). When more
than `keep_last_n` archives exist it deletes the Python slice
`archive_runs[:-keep_last_n]`; `[:-0]` is the empty slice, so `to_delete`
is empty when `keep_last_n = 0`. The deleted slice is a prefix of the
listing, so what remains is the corresponding suffix. -/
def clean_old_archives (archive_runs : List String) (keep_last_n : Nat) : List String :=
  if archive_runs.length ≤ keep_last_n then
    archive_runs
  else
    let to_delete :=
      if keep_last_n = 0 then ([] : List String)
      else archive_runs.take (archive_runs.length - keep_last_n)
    archive_runs.drop to_delete.length

end ArchiveManager

/-! ## MasterOpportunityAgent (src/orchestrator/master_agent.py) -/

namespace Master

/-- A stage's result dict. Only the string-valued entries the orchestrator
reads (`confidence`, `error`) matter to the claims, so a `Document` is an
association list of strings; the absent sentinel the orchestrator writes on
failure, `context[name] = \x7b\x7d`, is the empty dict `[]`. -/
abbrev Document := List (String × String)

/-- One entry of `execution_log`. The Python success dict has keys
`agent, timestamp, success, confidence, data_sources` and the failure dict
has `agent, timestamp, success, error`; timestamps and data sources are
not examined by any claim, and the field not present for the given
`success` value is the empty string here. -/
structure LogEntry where
  agent : String
  success : Bool
  confidence : String
  error : String
  deriving Repr, DecidableEq

/-- The mutable local state of `run_full_analysis` while the stage loop
runs: the accumulated context (its document entries keyed
`{name}_data`; the run-scoped metadata entries carry no information the
claims touch), the `results` dict, the execution log, both counters, the
set of result files `_save_agent_result` has successfully written, and
the warnings the logger emitted for unregistered stages. -/
structure RunState where
  context : List (String × Document)
  results : List (String × Document)
  execution_log : List LogEntry
  agents_executed : Nat
  agents_failed : Nat
  saved_files : List String
  warnings : List String

/-- The registered agents: `self.agents`, each agent's `execute` taking
the context and either returning a result dict or raising. -/
abbrev Agents := List (String × (List (String × Document) → Except String Document))

/-- The persistence effect of `_save_agent_result`: writing the result
file either succeeds or raises (serialization failure, storage
unavailable). The claims quantify over this behaviour. -/
abbrev SaveBehaviour := String → Document → Except String Unit

/-- The result artifact name `f"{agent_name}_result_{timestamp}.json"`. -/
def result_file_name (agent_name timestamp : String) : String :=
  agent_name ++ "_result_" ++ timestamp ++ ".json"

/-- The failure arm of the stage loop (`except Exception as e`): append a
failed log entry, bump `agents_failed`, set the context entry to the
absent sentinel and the results entry to the error dict. -/
def recordFailure (st : RunState) (agent_name e : String) : RunState :=
  { st with
    execution_log := st.execution_log ++ [⟨agent_name, false, "", e⟩],
    agents_failed := st.agents_failed + 1,
    context := setKey st.context (agent_name ++ "_data") [],
    results := setKey st.results agent_name [("error", e)] }

/-- One iteration of the `for agent_name in self.execution_order` loop.
An unregistered stage logs a warning and `continue`s. Otherwise the
`try` block runs `execute`, stores the result into context and results,
then saves it; an exception from either `execute` or the save lands in
the `except` arm, after any stores already made. On full success the
saved file, the success log entry and the counter are added. -/
def runStage (agents : Agents) (save : SaveBehaviour) (timestamp : String)
    (st : RunState) (agent_name : String) : RunState :=
  match getKey agents agent_name with
  | none => { st with warnings := st.warnings ++ [agent_name] }
  | some agent =>
    match agent st.context with
    | Except.error e => recordFailure st agent_name e
    | Except.ok agent_result =>
      let st1 :=
        { st with
          context := setKey st.context (agent_name ++ "_data") agent_result,
          results := setKey st.results agent_name agent_result }
      match save agent_name agent_result with
      | Except.error e => recordFailure st1 agent_name e
      | Except.ok _ =>
        { st1 with
          saved_files := st1.saved_files ++ [result_file_name agent_name timestamp],
          execution_log := st1.execution_log
            ++ [⟨agent_name, true, (getKey agent_result "confidence").getD "Unknown", ""⟩],
          agents_executed := st1.agents_executed + 1 }

/-- The state at the top of the loop: empty context (metadata entries
omitted), no results, no log, zero counters. -/
def initState : RunState :=
  { context := [], results := [], execution_log := [],
    agents_executed := 0, agents_failed := 0, saved_files := [], warnings := [] }

/-- The run summary written to `execution_summary_{timestamp}.json`:
the metadata counters, the execution log, and the `results_files` index
built from every stage of the execution order present in `results`. -/
structure RunSummary where
  agents_executed : Nat
  agents_failed : Nat
  execution_log : List LogEntry
  results_files : List (String × String)
  deriving Repr, DecidableEq

/-- The fixed `self.execution_order`. -/
def execution_order : List String := [
  "source_discovery", "market_size", "trends_simplification",
  "competitive_landscape", "pain_point_extraction", "compute_architecture",
  "bottleneck_diagnosis", "gap_analysis", "positioning_messaging",
  "visualization_reporting"]

/-- Run the stage loop from a given state over (a suffix of) the
execution order. -/
def runStages (agents : Agents) (save : SaveBehaviour) (timestamp : String)
    (st : RunState) (order : List String) : RunState :=
  order.foldl (runStage agents save timestamp) st

/-- `MasterOpportunityAgent.run_full_analysis` for a given stage order:
the stage loop from the initial state, then the summary. -/
def run_full_analysis (order : List String) (agents : Agents)
    (save : SaveBehaviour) (timestamp : String) : RunState × RunSummary :=
  let final := runStages agents save timestamp initState order
  (final,
   { agents_executed := final.agents_executed,
     agents_failed := final.agents_failed,
     execution_log := final.execution_log,
     results_files :=
       (order.filter (fun agent_name => (getKey final.results agent_name).isSome)).map
         (fun agent_name => (agent_name, result_file_name agent_name timestamp)) })

/-- Failed outcomes in an execution log. -/
def failCount (log : List LogEntry) : Nat :=
  (log.filter (fun e => !e.success)).length

/-- Successful outcomes in an execution log. -/
def succCount (log : List LogEntry) : Nat :=
  (log.filter (fun e => e.success)).length

end Master

/-! ## Concrete fixtures used by the orchestrator claims -/

/-- A sample stage result with a confidence field. -/
def sampleDoc : Master.Document := [("confidence", "High")]

/-- A worker whose `execute` always raises. -/
def failingWorker : List (String × Master.Document) → Except String Master.Document :=
  fun _ => Except.error "boom"

/-- A worker whose `execute` always returns `sampleDoc`. -/
def okWorker : List (String × Master.Document) → Except String Master.Document :=
  fun _ => Except.ok sampleDoc

/-- A two-stage order, a prefix of the fixed execution order. -/
def shortOrder : List String := ["source_discovery", "market_size"]

/-- Registered workers where the first stage's worker raises. -/
def sampleAgents : Master.Agents :=
  [("source_discovery", failingWorker), ("market_size", okWorker)]

/-- Registered workers where both stages succeed. -/
def okAgents : Master.Agents :=
  [("source_discovery", okWorker), ("market_size", okWorker)]

/-- Workers for only the second stage: the first stage is unregistered. -/
def partialAgents : Master.Agents := [("market_size", okWorker)]

/-- Persistence that always succeeds. -/
def okSave : Master.SaveBehaviour := fun _ _ => Except.ok ()

/-- Persistence that raises for the first stage's artifact only. -/
def failingSave : Master.SaveBehaviour :=
  fun agent_name _ =>
    if agent_name = "source_discovery" then Except.error "disk full" else Except.ok ()

/-! ## Helper lemmas -/

theorem getKey_setKey {α : Type} (l : List (String × α)) (k : String) (v : α)
    (n : String) : getKey (setKey l k v) n = if n = k then some v else getKey l n := by
  induction l with
  | nil =>
    by_cases hk : n = k
    · subst hk; simp [setKey, getKey]
    · have h2 : ¬ k = n := fun h => hk h.symm
      simp [setKey, getKey, hk, h2]
  | cons kv t ih =>
    by_cases h1 : kv.1 = k
    · by_cases hk : n = k
      · subst hk; simp [setKey, getKey, h1]
      · have h2 : ¬ k = n := fun h => hk h.symm
        have h3 : ¬ kv.1 = n := fun h => hk (h1.symm.trans h).symm
        simp [setKey, getKey, h1, hk, h2, h3]
    · by_cases hk : n = k
      · subst hk
        have h3 : ¬ kv.1 = n := h1
        simp [setKey, getKey, h1, h3, ih]
      · by_cases h4 : kv.1 = n <;> simp [setKey, getKey, h1, h4, ih, hk]

namespace Master

/-- The agents named by the run's execution log are exactly the registered
stages of the traversed order, in order, whatever each worker or the
persistence layer does. -/
theorem runStages_log_agents (agents : Agents) (save : SaveBehaviour)
    (timestamp : String) (order : List String) : ∀ st : RunState,
    ((runStages agents save timestamp st order).execution_log).map (fun e => e.agent)
      = st.execution_log.map (fun e => e.agent)
        ++ order.filter (fun n => (getKey agents n).isSome) := by
  induction order with
  | nil => intro st; simp [runStages]
  | cons a t ih =>
    intro st
    have hstep : runStages agents save timestamp st (a :: t)
        = runStages agents save timestamp (runStage agents save timestamp st a) t := rfl
    rw [hstep, ih]
    cases hg : getKey agents a with
    | none => simp [runStage, hg, List.filter_cons]
    | some w =>
      cases hw : w st.context with
      | error e =>
        simp [runStage, recordFailure, hg, hw, List.filter_cons]
      | ok doc =>
        cases hs : save a doc with
        | error e =>
          simp [runStage, recordFailure, hg, hw, hs, List.filter_cons]
        | ok u =>
          simp [runStage, hg, hw, hs, List.filter_cons]

/-- The counters track the log: whenever `agents_failed` and
`agents_executed` equal the failed and successful outcome counts of the
log, they still do after running any stages. -/
theorem runStages_counters (agents : Agents) (save : SaveBehaviour)
    (timestamp : String) (order : List String) : ∀ st : RunState,
    st.agents_failed = failCount st.execution_log →
    st.agents_executed = succCount st.execution_log →
    (runStages agents save timestamp st order).agents_failed
        = failCount (runStages agents save timestamp st order).execution_log
    ∧ (runStages agents save timestamp st order).agents_executed
        = succCount (runStages agents save timestamp st order).execution_log := by
  induction order with
  | nil => intro st h1 h2; exact ⟨h1, h2⟩
  | cons a t ih =>
    intro st h1 h2
    have hstep : runStages agents save timestamp st (a :: t)
        = runStages agents save timestamp (runStage agents save timestamp st a) t := rfl
    rw [hstep]
    apply ih
    · cases hg : getKey agents a with
      | none => simpa [runStage, hg] using h1
      | some w =>
        cases hw : w st.context with
        | error e =>
          simp [runStage, recordFailure, hg, hw, failCount, List.filter_append, h1]
        | ok doc =>
          cases hs : save a doc with
          | error e =>
            simp [runStage, recordFailure, hg, hw, hs, failCount, List.filter_append, h1]
          | ok u =>
            simp [runStage, hg, hw, hs, failCount, List.filter_append, h1]
    · cases hg : getKey agents a with
      | none => simpa [runStage, hg] using h2
      | some w =>
        cases hw : w st.context with
        | error e =>
          simp [runStage, recordFailure, hg, hw, succCount, List.filter_append, h2]
        | ok doc =>
          cases hs : save a doc with
          | error e =>
            simp [runStage, recordFailure, hg, hw, hs, succCount, List.filter_append, h2]
          | ok u =>
            simp [runStage, hg, hw, hs, succCount, List.filter_append, h2]

/-- The warnings log collects exactly the traversed stages that have no
registered worker. -/
theorem runStages_warnings (agents : Agents) (save : SaveBehaviour)
    (timestamp : String) (order : List String) : ∀ st : RunState,
    (runStages agents save timestamp st order).warnings
      = st.warnings ++ order.filter (fun n => (getKey agents n).isNone) := by
  induction order with
  | nil => intro st; simp [runStages]
  | cons a t ih =>
    intro st
    have hstep : runStages agents save timestamp st (a :: t)
        = runStages agents save timestamp (runStage agents save timestamp st a) t := rfl
    rw [hstep, ih]
    cases hg : getKey agents a with
    | none => simp [runStage, hg, List.filter_cons]
    | some w =>
      cases hw : w st.context with
      | error e =>
        simp [runStage, recordFailure, hg, hw, List.filter_cons]
      | ok doc =>
        cases hs : save a doc with
        | error e =>
          simp [runStage, recordFailure, hg, hw, hs, List.filter_cons]
        | ok u =>
          simp [runStage, hg, hw, hs, List.filter_cons]

/-- Result files on disk are exactly the files of the successful outcomes:
`_save_agent_result` runs before the success entry is appended, and the
`except` arm writes nothing. -/
theorem runStages_saved_files (agents : Agents) (save : SaveBehaviour)
    (timestamp : String) (order : List String) : ∀ st : RunState,
    st.saved_files = (st.execution_log.filter (fun e => e.success)).map
      (fun e => result_file_name e.agent timestamp) →
    (runStages agents save timestamp st order).saved_files
      = ((runStages agents save timestamp st order).execution_log.filter
          (fun e => e.success)).map (fun e => result_file_name e.agent timestamp) := by
  induction order with
  | nil => intro st h; exact h
  | cons a t ih =>
    intro st h
    have hstep : runStages agents save timestamp st (a :: t)
        = runStages agents save timestamp (runStage agents save timestamp st a) t := rfl
    rw [hstep]
    apply ih
    cases hg : getKey agents a with
    | none => simpa [runStage, hg] using h
    | some w =>
      cases hw : w st.context with
      | error e =>
        simp [runStage, recordFailure, hg, hw, List.filter_append, h]
      | ok doc =>
        cases hs : save a doc with
        | error e =>
          simp [runStage, recordFailure, hg, hw, hs, List.filter_append, h]
        | ok u =>
          simp [runStage, hg, hw, hs, List.filter_append, h]

/-- One loop iteration appends the stage's name to the log's agent list
exactly when the stage is registered. -/
theorem runStage_log_agents (agents : Agents) (save : SaveBehaviour)
    (timestamp : String) (st : RunState) (a : String) :
    (runStage agents save timestamp st a).execution_log.map (fun e => e.agent)
      = st.execution_log.map (fun e => e.agent)
        ++ (if (getKey agents a).isSome then [a] else []) := by
  cases hg : getKey agents a with
  | none => simp [runStage, hg]
  | some w =>
    cases hw : w st.context with
    | error e => simp [runStage, recordFailure, hg, hw]
    | ok doc =>
      cases hs : save a doc with
      | error e => simp [runStage, recordFailure, hg, hw, hs]
      | ok u => simp [runStage, hg, hw, hs]

/-- One loop iteration never removes a `results` entry. -/
theorem runStage_results_mono (agents : Agents) (save : SaveBehaviour)
    (timestamp : String) (st : RunState) (a n : String)
    (hsome : (getKey st.results n).isSome = true) :
    (getKey (runStage agents save timestamp st a).results n).isSome = true := by
  cases hg : getKey agents a with
  | none => simpa [runStage, hg] using hsome
  | some w =>
    cases hw : w st.context with
    | error e =>
      by_cases hna : n = a <;>
        simp [runStage, recordFailure, hg, hw, getKey_setKey, hna, hsome]
    | ok doc =>
      cases hs : save a doc with
      | error e =>
        by_cases hna : n = a <;>
          simp [runStage, recordFailure, hg, hw, hs, getKey_setKey, hna, hsome]
      | ok u =>
        by_cases hna : n = a <;>
          simp [runStage, hg, hw, hs, getKey_setKey, hna, hsome]

/-- A registered stage leaves a `results` entry behind, on success and on
failure alike. -/
theorem runStage_results_self (agents : Agents) (save : SaveBehaviour)
    (timestamp : String) (st : RunState) (a : String)
    (hreg : (getKey agents a).isSome = true) :
    (getKey (runStage agents save timestamp st a).results a).isSome = true := by
  obtain ⟨w, hw⟩ := Option.isSome_iff_exists.mp hreg
  cases hww : w st.context with
  | error e => simp [runStage, recordFailure, hw, hww, getKey_setKey]
  | ok doc =>
    cases hs : save a doc with
    | error e => simp [runStage, recordFailure, hw, hww, hs, getKey_setKey]
    | ok u => simp [runStage, hw, hww, hs, getKey_setKey]

/-- Every stage with an outcome in the log has an entry in `results`:
both the success and the failure arm assign `results[agent_name]`. -/
theorem runStages_results_logged (agents : Agents) (save : SaveBehaviour)
    (timestamp : String) (order : List String) : ∀ st : RunState,
    (∀ n, n ∈ st.execution_log.map (fun e => e.agent) → (getKey st.results n).isSome = true) →
    ∀ n, n ∈ ((runStages agents save timestamp st order).execution_log.map
        (fun e => e.agent)) →
      (getKey (runStages agents save timestamp st order).results n).isSome = true := by
  induction order with
  | nil => intro st h; exact h
  | cons a t ih =>
    intro st h
    have hstep : runStages agents save timestamp st (a :: t)
        = runStages agents save timestamp (runStage agents save timestamp st a) t := rfl
    rw [hstep]
    apply ih
    intro n hn
    rw [runStage_log_agents] at hn
    rcases List.mem_append.mp hn with hmem | hmem
    · exact runStage_results_mono agents save timestamp st a n (h n hmem)
    · by_cases hreg : (getKey agents a).isSome
      · have hna : n = a := by
          rw [if_pos hreg] at hmem
          simpa using hmem
        subst hna
        exact runStage_results_self agents save timestamp st n hreg
      · rw [if_neg hreg] at hmem
        simp at hmem

/-- Running the first `k+1` stages is running the first `k` and then one
more loop iteration on stage `k`. -/
theorem runStages_take_succ (agents : Agents) (save : SaveBehaviour)
    (timestamp : String) (order : List String) (k : Nat) (hk : k < order.length) :
    runStages agents save timestamp initState (order.take (k+1))
      = runStage agents save timestamp
          (runStages agents save timestamp initState (order.take k))
          (order.get ⟨k, hk⟩) := by
  unfold runStages
  rw [show order.take (k+1) = order.take k ++ [order.get ⟨k, hk⟩] from by
        simp [List.take_succ, List.get?_eq_get hk],
      List.foldl_append]
  rfl

/-- The result artifact name determines the stage name: appending the
fixed `_result_{timestamp}.json` suffix is injective. -/
theorem result_file_name_inj (a b timestamp : String)
    (h : result_file_name a timestamp = result_file_name b timestamp) : a = b := by
  have hd := congrArg String.data h
  simp only [result_file_name, String.data_append, List.append_assoc] at hd
  have hcancel := List.append_cancel_right hd
  cases a; cases b
  exact congrArg String.mk (by simpa using hcancel)

end Master

/-! ## Claims C1, C2, C7, C8: MasterOpportunityAgent -/

/-- C1: failure isolation. If stage `k`'s worker raises during `execute`,
the loop appends a failed outcome for stage `k` and sets its context entry
to the absent sentinel; every registered stage of the order still gets an
outcome (the log's agents are exactly the registered stages, in order),
and the final `agents_failed` count equals the number of failed outcomes
in the execution log. -/
theorem C1_failure_isolation (order : List String) (agents : Master.Agents)
    (save : Master.SaveBehaviour) (timestamp : String) (k : Nat)
    (hk : k < order.length)
    (w : List (String × Master.Document) → Except String Master.Document)
    (hreg : getKey agents (order.get ⟨k, hk⟩) = some w) (e : String)
    (hfail : w (Master.runStages agents save timestamp Master.initState
        (order.take k)).context = Except.error e) :
    (Master.runStages agents save timestamp Master.initState (order.take (k+1))).execution_log
      = (Master.runStages agents save timestamp Master.initState (order.take k)).execution_log
        ++ [⟨order.get ⟨k, hk⟩, false, "", e⟩]
    ∧ getKey (Master.runStages agents save timestamp Master.initState
        (order.take (k+1))).context (order.get ⟨k, hk⟩ ++ "_data") = some []
    ∧ (Master.run_full_analysis order agents save timestamp).1.execution_log.map
        (fun x => x.agent) = order.filter (fun n => (getKey agents n).isSome)
    ∧ (Master.run_full_analysis order agents save timestamp).2.agents_failed
      = Master.failCount
          (Master.run_full_analysis order agents save timestamp).2.execution_log := by
  have hstep := Master.runStages_take_succ agents save timestamp order k hk
  rw [List.get_eq_getElem] at hreg
  refine ⟨?_, ?_, ?_, ?_⟩
  · rw [hstep]
    simp [Master.runStage, hreg, hfail, Master.recordFailure]
  · rw [hstep]
    simp [Master.runStage, hreg, hfail, Master.recordFailure, getKey_setKey]
  · have hlog := Master.runStages_log_agents agents save timestamp order Master.initState
    simpa [Master.run_full_analysis, Master.initState] using hlog
  · have hcnt := Master.runStages_counters agents save timestamp order Master.initState
      (by simp [Master.initState, Master.failCount])
      (by simp [Master.initState, Master.succCount])
    simpa [Master.run_full_analysis] using hcnt.1

/-- C1 witness: two stages, the first stage's worker raises, the second
still runs; one failed outcome, matching the failed count. -/
theorem C1_witness :
    (Master.runStages sampleAgents okSave "T" Master.initState (shortOrder.take 1)).execution_log
      = (Master.runStages sampleAgents okSave "T" Master.initState
          (shortOrder.take 0)).execution_log ++ [⟨"source_discovery", false, "", "boom"⟩]
    ∧ getKey (Master.runStages sampleAgents okSave "T" Master.initState
        (shortOrder.take 1)).context ("source_discovery" ++ "_data") = some []
    ∧ (Master.run_full_analysis shortOrder sampleAgents okSave "T").1.execution_log.map
        (fun x => x.agent) = shortOrder.filter (fun n => (getKey sampleAgents n).isSome)
    ∧ (Master.run_full_analysis shortOrder sampleAgents okSave "T").2.agents_failed
      = Master.failCount
          (Master.run_full_analysis shortOrder sampleAgents okSave "T").2.execution_log :=
  C1_failure_isolation shortOrder sampleAgents okSave "T" 0 (by decide)
    failingWorker rfl "boom" rfl

/-- C2 counterexample: with both workers succeeding but persistence of the
first stage's artifact raising, the run does not abort: it records a
failed outcome for the first stage (merely that stage's StageFailure), the
second stage still runs and its artifact is written, and a full summary is
produced with `agents_failed = 1`. -/
theorem C2_counterexample_persistence_not_fatal :
    (Master.run_full_analysis shortOrder okAgents failingSave "T").1.execution_log
      = [⟨"source_discovery", false, "", "disk full"⟩, ⟨"market_size", true, "High", ""⟩]
    ∧ (Master.run_full_analysis shortOrder okAgents failingSave "T").2.agents_failed = 1
    ∧ (Master.run_full_analysis shortOrder okAgents failingSave "T").1.saved_files
      = [Master.result_file_name "market_size" "T"] := by
  refine ⟨by decide, by decide, by decide⟩

/-- C2 amended: a failure while saving stage `k`'s result artifact is
caught by the same per-stage handler as a worker failure — the stage is
recorded as a failed outcome carrying the error, its context entry is
reset to the absent sentinel, and every registered stage still gets an
outcome; the run is not aborted (only the summary write at the end sits
outside the handler). -/
theorem C2_amended_save_failure_isolated (order : List String) (agents : Master.Agents)
    (save : Master.SaveBehaviour) (timestamp : String) (k : Nat)
    (hk : k < order.length)
    (w : List (String × Master.Document) → Except String Master.Document)
    (hreg : getKey agents (order.get ⟨k, hk⟩) = some w) (doc : Master.Document)
    (hok : w (Master.runStages agents save timestamp Master.initState
        (order.take k)).context = Except.ok doc)
    (e : String) (hsave : save (order.get ⟨k, hk⟩) doc = Except.error e) :
    (Master.runStages agents save timestamp Master.initState (order.take (k+1))).execution_log
      = (Master.runStages agents save timestamp Master.initState (order.take k)).execution_log
        ++ [⟨order.get ⟨k, hk⟩, false, "", e⟩]
    ∧ getKey (Master.runStages agents save timestamp Master.initState
        (order.take (k+1))).context (order.get ⟨k, hk⟩ ++ "_data") = some []
    ∧ (Master.run_full_analysis order agents save timestamp).1.execution_log.map
        (fun x => x.agent) = order.filter (fun n => (getKey agents n).isSome)
    ∧ (Master.run_full_analysis order agents save timestamp).2.agents_failed
      = Master.failCount
          (Master.run_full_analysis order agents save timestamp).2.execution_log := by
  have hstep := Master.runStages_take_succ agents save timestamp order k hk
  rw [List.get_eq_getElem] at hreg hsave
  refine ⟨?_, ?_, ?_, ?_⟩
  · rw [hstep]
    simp [Master.runStage, hreg, hok, hsave, Master.recordFailure]
  · rw [hstep]
    simp [Master.runStage, hreg, hok, hsave, Master.recordFailure, getKey_setKey]
  · have hlog := Master.runStages_log_agents agents save timestamp order Master.initState
    simpa [Master.run_full_analysis, Master.initState] using hlog
  · have hcnt := Master.runStages_counters agents save timestamp order Master.initState
      (by simp [Master.initState, Master.failCount])
      (by simp [Master.initState, Master.succCount])
    simpa [Master.run_full_analysis] using hcnt.1

/-- C2 amended witness: persistence raises on the first stage; its outcome
is the failure entry, its context entry the absent sentinel, and both
registered stages are in the log. -/
theorem C2_witness :
    (Master.runStages okAgents failingSave "T" Master.initState (shortOrder.take 1)).execution_log
      = (Master.runStages okAgents failingSave "T" Master.initState
          (shortOrder.take 0)).execution_log ++ [⟨"source_discovery", false, "", "disk full"⟩]
    ∧ getKey (Master.runStages okAgents failingSave "T" Master.initState
        (shortOrder.take 1)).context ("source_discovery" ++ "_data") = some []
    ∧ (Master.run_full_analysis shortOrder okAgents failingSave "T").1.execution_log.map
        (fun x => x.agent) = shortOrder.filter (fun n => (getKey okAgents n).isSome)
    ∧ (Master.run_full_analysis shortOrder okAgents failingSave "T").2.agents_failed
      = Master.failCount
          (Master.run_full_analysis shortOrder okAgents failingSave "T").2.execution_log :=
  C2_amended_save_failure_isolated shortOrder okAgents failingSave "T" 0 (by decide)
    okWorker rfl sampleDoc rfl "disk full" rfl

/-- C7: a stage of the execution order with no registered worker is
skipped with a warning: the warning log names it, it contributes no
execution-log entry (hence no error entry and no effect on the failed
count, which still equals the failed outcomes), and the registered stages
still make up the log, in order. -/
theorem C7_unregistered_stage_skipped (order : List String) (agents : Master.Agents)
    (save : Master.SaveBehaviour) (timestamp : String) (name : String)
    (hmem : name ∈ order) (hreg : getKey agents name = none) :
    name ∈ (Master.run_full_analysis order agents save timestamp).1.warnings
    ∧ name ∉ (Master.run_full_analysis order agents save timestamp).1.execution_log.map
        (fun x => x.agent)
    ∧ (Master.run_full_analysis order agents save timestamp).1.execution_log.map
        (fun x => x.agent) = order.filter (fun n => (getKey agents n).isSome)
    ∧ (Master.run_full_analysis order agents save timestamp).2.agents_failed
      = Master.failCount
          (Master.run_full_analysis order agents save timestamp).2.execution_log := by
  have hlog := Master.runStages_log_agents agents save timestamp order Master.initState
  have hlog' : (Master.run_full_analysis order agents save timestamp).1.execution_log.map
      (fun x => x.agent) = order.filter (fun n => (getKey agents n).isSome) := by
    simpa [Master.run_full_analysis, Master.initState] using hlog
  refine ⟨?_, ?_, hlog', ?_⟩
  · have hwarn := Master.runStages_warnings agents save timestamp order Master.initState
    have hwarn' : (Master.run_full_analysis order agents save timestamp).1.warnings
        = order.filter (fun n => (getKey agents n).isNone) := by
      simpa [Master.run_full_analysis, Master.initState] using hwarn
    rw [hwarn']
    exact List.mem_filter.mpr ⟨hmem, by simp [hreg]⟩
  · intro hcontra
    rw [hlog'] at hcontra
    have := (List.mem_filter.mp hcontra).2
    rw [hreg] at this
    simp at this
  · have hcnt := Master.runStages_counters agents save timestamp order Master.initState
      (by simp [Master.initState, Master.failCount])
      (by simp [Master.initState, Master.succCount])
    simpa [Master.run_full_analysis] using hcnt.1

/-- C7 witness: `source_discovery` has no registered worker; it is warned
about, absent from the log, and `market_size` still runs. -/
theorem C7_witness :
    "source_discovery" ∈ (Master.run_full_analysis shortOrder partialAgents okSave "T").1.warnings
    ∧ "source_discovery" ∉ (Master.run_full_analysis shortOrder partialAgents okSave "T").1.execution_log.map
        (fun x => x.agent)
    ∧ (Master.run_full_analysis shortOrder partialAgents okSave "T").1.execution_log.map
        (fun x => x.agent) = shortOrder.filter (fun n => (getKey partialAgents n).isSome)
    ∧ (Master.run_full_analysis shortOrder partialAgents okSave "T").2.agents_failed
      = Master.failCount
          (Master.run_full_analysis shortOrder partialAgents okSave "T").2.execution_log :=
  C7_unregistered_stage_skipped shortOrder partialAgents okSave "T" "source_discovery"
    (by decide) rfl

/-- C8: the `results_files` index of the summary also maps every failed
stage to `{stageName}_result_{runTimestamp}.json`, although the file is
written only on success: for any failed outcome in the log, the summary
index contains that stage's filename while the set of files actually
written does not. -/
theorem C8_results_files_indexes_unwritten_file (order : List String)
    (agents : Master.Agents) (save : Master.SaveBehaviour) (timestamp : String)
    (hnd : order.Nodup) (entry : Master.LogEntry)
    (hin : entry ∈ (Master.run_full_analysis order agents save timestamp).1.execution_log)
    (hfailb : entry.success = false) :
    (entry.agent, Master.result_file_name entry.agent timestamp)
      ∈ (Master.run_full_analysis order agents save timestamp).2.results_files
    ∧ Master.result_file_name entry.agent timestamp
      ∉ (Master.run_full_analysis order agents save timestamp).1.saved_files := by
  have hrfa1 : (Master.run_full_analysis order agents save timestamp).1
      = Master.runStages agents save timestamp Master.initState order := rfl
  have hlog := Master.runStages_log_agents agents save timestamp order Master.initState
  have hlog' : (Master.runStages agents save timestamp Master.initState order).execution_log.map
      (fun x => x.agent) = order.filter (fun n => (getKey agents n).isSome) := by
    simpa [Master.initState] using hlog
  have hin' : entry ∈ (Master.runStages agents save timestamp Master.initState order).execution_log := by
    rw [← hrfa1]; exact hin
  have hmemmap : entry.agent ∈ (Master.runStages agents save timestamp
      Master.initState order).execution_log.map (fun x => x.agent) :=
    List.mem_map.mpr ⟨entry, hin', rfl⟩
  have hres : (getKey (Master.runStages agents save timestamp Master.initState
      order).results entry.agent).isSome = true :=
    Master.runStages_results_logged agents save timestamp order Master.initState
      (by simp [Master.initState]) entry.agent hmemmap
  have hordmem : entry.agent ∈ order := by
    rw [hlog'] at hmemmap
    exact (List.mem_filter.mp hmemmap).1
  constructor
  · show (entry.agent, Master.result_file_name entry.agent timestamp)
      ∈ (order.filter (fun n => (getKey (Master.runStages agents save timestamp
          Master.initState order).results n).isSome)).map
        (fun n => (n, Master.result_file_name n timestamp))
    exact List.mem_map.mpr ⟨entry.agent, List.mem_filter.mpr ⟨hordmem, hres⟩, rfl⟩
  · have hsaved := Master.runStages_saved_files agents save timestamp order Master.initState
      (by simp [Master.initState])
    intro hcontra
    rw [hrfa1, hsaved] at hcontra
    obtain ⟨x, hxmem, hxeq⟩ := List.mem_map.mp hcontra
    have hxf := List.mem_filter.mp hxmem
    have hagent : x.agent = entry.agent := Master.result_file_name_inj _ _ _ hxeq
    have hnodup : ((Master.runStages agents save timestamp Master.initState
        order).execution_log.map (fun x => x.agent)).Nodup := by
      rw [hlog']
      exact hnd.filter _
    have hxe : x = entry :=
      List.inj_on_of_nodup_map hnodup hxf.1 hin' hagent
    rw [hxe] at hxf
    rw [hfailb] at hxf
    simp at hxf

/-- C8 witness: the failed first stage is indexed in `results_files` with
a filename that was never written. -/
theorem C8_witness :
    ("source_discovery", Master.result_file_name "source_discovery" "T")
      ∈ (Master.run_full_analysis shortOrder sampleAgents okSave "T").2.results_files
    ∧ Master.result_file_name "source_discovery" "T"
      ∉ (Master.run_full_analysis shortOrder sampleAgents okSave "T").1.saved_files :=
  C8_results_files_indexes_unwritten_file shortOrder sampleAgents okSave "T"
    (by decide) ⟨"source_discovery", false, "", "boom"⟩ (by decide) rfl

/-! ## Claims C3, C5: ArchiveManager -/

/-- C3 counterexample: with one existing archive and `keepLastN = 0` the
claim demands `min 1 0 = 0` archives remain, but the Python slice
`[:-0]` deletes nothing and one archive remains. -/
theorem C3_counterexample_keep_zero :
    (ArchiveManager.clean_old_archives ["run_20240101_000000"] 0).length
      ≠ min (List.length ["run_20240101_000000"]) 0 := by
  decide

/-- C3 amended: for every sorted archive listing and every
`keepLastN ≥ 1`, pruning leaves exactly `min M keepLastN` archives and
they are the final segment (the most recent) of the creation-order sort;
at `keepLastN = 0` the code deletes nothing. -/
theorem C3_prune_keeps_min_most_recent (archive_runs : List String)
    (keep_last_n : Nat) (h : 1 ≤ keep_last_n) :
    ArchiveManager.clean_old_archives archive_runs keep_last_n
      = archive_runs.drop (archive_runs.length - keep_last_n)
    ∧ (ArchiveManager.clean_old_archives archive_runs keep_last_n).length
      = min archive_runs.length keep_last_n := by
  have hne : ¬ keep_last_n = 0 := by omega
  unfold ArchiveManager.clean_old_archives
  by_cases hle : archive_runs.length ≤ keep_last_n
  · have h0 : archive_runs.length - keep_last_n = 0 := by omega
    simp [hle, h0, Nat.min_eq_left hle]
  · have hlt : keep_last_n < archive_runs.length := by omega
    have hlen : (archive_runs.take (archive_runs.length - keep_last_n)).length
        = archive_runs.length - keep_last_n := by
      rw [List.length_take]; omega
    simp [hle, hne, hlen, List.length_drop]
    omega

/-- C3 witness: three archives pruned to the most recent two. -/
theorem C3_witness :
    ArchiveManager.clean_old_archives ["run_a", "run_b", "run_c"] 2
      = (["run_a", "run_b", "run_c"] : List String).drop (3 - 2)
    ∧ (ArchiveManager.clean_old_archives ["run_a", "run_b", "run_c"] 2).length
      = min (List.length ["run_a", "run_b", "run_c"]) 2 :=
  C3_prune_keeps_min_most_recent ["run_a", "run_b", "run_c"] 2 (by decide)

/-- C5: archiving an empty result namespace — no report JSON files and no
visualization PNG files — returns null and leaves the whole outputs tree
(including the archives) unchanged. -/
theorem C5_empty_archive_noop (s : ArchiveManager.OutputsState) (run_timestamp : String)
    (hr : s.report_json_files = []) (hv : s.viz_png_files = []) :
    ArchiveManager.archive_previous_run s run_timestamp = (none, s) := by
  simp [ArchiveManager.archive_previous_run, hr, hv]

/-- C5 witness: the empty namespace with one pre-existing archive. -/
theorem C5_witness :
    ArchiveManager.archive_previous_run ⟨[], [], [("run_old", ["r.json"], [])]⟩ "20240101_000000"
      = (none, ⟨[], [], [("run_old", ["r.json"], [])]⟩) :=
  C5_empty_archive_noop ⟨[], [], [("run_old", ["r.json"], [])]⟩ "20240101_000000" rfl rfl

/-! ## Claims C4, C9, C10: SourceValidator -/

/-- C4: exclusion overrides allow. For every URL matching some configured
exclusion pattern, `validate_url` returns `allowed = false`, because the
exclusion loop runs before the domain allow-list loop; in particular
`"https://blog.ieee.org/post"` is rejected although `"ieee.org"` is an
allow-listed domain contained in it, since the pattern `"blog."` matches. -/
theorem C4_exclusion_overrides_allow (url : String)
    (h : SourceValidator.EXCLUDED_PATTERNS.any
      (fun pattern => SourceValidator.reSearchIC pattern url) = true) :
    (SourceValidator.validate_url url).1 = false
    ∧ (SourceValidator.validate_url "https://blog.ieee.org/post").1 = false
    ∧ "ieee.org" ∈ SourceValidator.ALLOWED_DOMAINS
    ∧ SourceValidator.reSearchIC "blog." "https://blog.ieee.org/post" = true
    ∧ containsSub (strLower "https://blog.ieee.org/post") "ieee.org" = true := by
  refine ⟨?_, by decide, by decide, by decide, by decide⟩
  obtain ⟨p, hp, hm⟩ := List.any_eq_true.mp h
  unfold SourceValidator.validate_url
  split
  · simp
  · rename_i hf
    exact absurd hm (List.find?_eq_none.mp hf p hp)

/-- C4 witness: the concrete excluded URL of the claim. -/
theorem C4_witness :
    (SourceValidator.validate_url "https://blog.ieee.org/post").1 = false
    ∧ "ieee.org" ∈ SourceValidator.ALLOWED_DOMAINS :=
  ⟨(C4_exclusion_overrides_allow "https://blog.ieee.org/post" (by decide)).2.1,
   (C4_exclusion_overrides_allow "https://blog.ieee.org/post" (by decide)).2.2.1⟩

/-- C9: the missing comma between the adjacent literals `'amd.com'` and
`'tesla.com'` makes `ALLOWED_DOMAINS` contain the single concatenated entry
`"amd.comtesla.com"` (17 entries, neither `"amd.com"` nor `"tesla.com"`
among them); hence a URL containing `amd.com` or `tesla.com` but matching
no entry of the allow list and no exclusion pattern is rejected with
`(False, "Domain not allowed list")`. -/
theorem C9_missing_comma_concatenates_domains (url : String)
    (h1 : containsSub (strLower url) "amd.com" = true
          ∨ containsSub (strLower url) "tesla.com" = true)
    (h2 : ∀ d ∈ SourceValidator.ALLOWED_DOMAINS, containsSub (strLower url) d = false)
    (h3 : ∀ p ∈ SourceValidator.EXCLUDED_PATTERNS, SourceValidator.reSearchIC p url = false) :
    SourceValidator.validate_url url = (false, "Domain not allowed list")
    ∧ "amd.comtesla.com" ∈ SourceValidator.ALLOWED_DOMAINS
    ∧ "amd.com" ∉ SourceValidator.ALLOWED_DOMAINS
    ∧ "tesla.com" ∉ SourceValidator.ALLOWED_DOMAINS
    ∧ SourceValidator.ALLOWED_DOMAINS.length = 17 := by
  refine ⟨?_, by decide, by decide, by decide, by decide⟩
  have hf1 : SourceValidator.EXCLUDED_PATTERNS.find?
      (fun pattern => SourceValidator.reSearchIC pattern url) = none :=
    List.find?_eq_none.mpr (fun p hp => by simp [h3 p hp])
  have hf2 : SourceValidator.ALLOWED_DOMAINS.find?
      (fun domain => containsSub (strLower url) domain) = none :=
    List.find?_eq_none.mpr (fun d hd => by simp [h2 d hd])
  unfold SourceValidator.validate_url
  rw [hf1, hf2]

/-- C9 witness: `https://www.amd.com/products` contains `amd.com`, matches
no allow-list entry and no exclusion pattern, and is rejected. -/
theorem C9_witness :
    SourceValidator.validate_url "https://www.amd.com/products"
      = (false, "Domain not allowed list")
    ∧ "amd.comtesla.com" ∈ SourceValidator.ALLOWED_DOMAINS
    ∧ "amd.com" ∉ SourceValidator.ALLOWED_DOMAINS
    ∧ "tesla.com" ∉ SourceValidator.ALLOWED_DOMAINS
    ∧ SourceValidator.ALLOWED_DOMAINS.length = 17 :=
  C9_missing_comma_concatenates_domains "https://www.amd.com/products"
    (Or.inl (by decide)) (by decide) (by decide)

/-- C6: warnings never invalidate. For every configuration and every
citation whose URL is present and non-empty, not excluded, and matched by
some allow-list category, `SourceRules.validate_citation` returns
`valid = true` with no errors — whatever the `claim` and `date_accessed`
fields are — and a missing recommended field only adds its warning line. -/
theorem C6_warnings_never_invalidate (cfg : SourceRules.Config)
    (citation : List (String × String)) (u : String)
    (hurl : getKey citation "url" = some u)
    (hne : u.isEmpty = false)
    (hexcl : (SourceRules.is_excluded cfg u).1 = false)
    (hallow : (SourceRules.is_allowed_domain cfg u).1 = true) :
    (SourceRules.validate_citation cfg citation).valid = true
    ∧ (SourceRules.validate_citation cfg citation).errors = []
    ∧ (blankField citation "claim" = true →
        "Missing recommended field: claim"
          ∈ (SourceRules.validate_citation cfg citation).warnings)
    ∧ (blankField citation "date_accessed" = true →
        "Missing recommended field: date_accessed"
          ∈ (SourceRules.validate_citation cfg citation).warnings) := by
  have hblank : blankField citation "url" = false := by
    simp [blankField, hurl, hne]
  refine ⟨?_, ?_, ?_, ?_⟩
  · simp [SourceRules.validate_citation, hblank, hurl, hexcl, hallow]
  · simp [SourceRules.validate_citation, hblank, hurl, hexcl, hallow]
  · intro hc
    cases hd : blankField citation "date_accessed" <;>
      simp [SourceRules.validate_citation, hblank, hurl, hexcl, hallow, hc, hd]
  · intro hd
    cases hc : blankField citation "claim" <;>
      simp [SourceRules.validate_citation, hblank, hurl, hexcl, hallow, hc, hd]

/-- C6 witness: a one-entry academic configuration and a citation holding
only an allow-listed URL — both recommended fields absent — validates with
no errors and both warnings. -/
theorem C6_witness :
    (SourceRules.validate_citation
      ⟨[("ieee", ⟨["ieee.org"], "high"⟩)], [], [], [], [], ["blog."]⟩
      [("url", "https://www.ieee.org/x")]).valid = true
    ∧ (SourceRules.validate_citation
      ⟨[("ieee", ⟨["ieee.org"], "high"⟩)], [], [], [], [], ["blog."]⟩
      [("url", "https://www.ieee.org/x")]).errors = []
    ∧ "Missing recommended field: claim"
        ∈ (SourceRules.validate_citation
          ⟨[("ieee", ⟨["ieee.org"], "high"⟩)], [], [], [], [], ["blog."]⟩
          [("url", "https://www.ieee.org/x")]).warnings
    ∧ "Missing recommended field: date_accessed"
        ∈ (SourceRules.validate_citation
          ⟨[("ieee", ⟨["ieee.org"], "high"⟩)], [], [], [], [], ["blog."]⟩
          [("url", "https://www.ieee.org/x")]).warnings := by
  have h := C6_warnings_never_invalidate
    ⟨[("ieee", ⟨["ieee.org"], "high"⟩)], [], [], [], [], ["blog."]⟩
    [("url", "https://www.ieee.org/x")] "https://www.ieee.org/x"
    (by decide) (by decide) (by decide) (by decide)
  exact ⟨h.1, h.2.1, h.2.2.1 (by decide), h.2.2.2 (by decide)⟩

/-- C10: `SourceValidator.validate_citation` requires a field literally
named `"claim "` (trailing space); any citation in which that exact key is
absent or falsy — in particular one using the documented key `"claim"` —
is marked invalid with `"claim "` in `missing_fields`, regardless of the
URL's validity. -/
theorem C10_claim_field_trailing_space (citation : List (String × String))
    (h : blankField citation "claim " = true) :
    (SourceValidator.validate_citation citation).valid = false
    ∧ "claim " ∈ (SourceValidator.validate_citation citation).missing_fields := by
  have hreq : (SourceValidator.checkRequired citation).1 = false
      ∧ "claim " ∈ (SourceValidator.checkRequired citation).2 := by
    unfold SourceValidator.checkRequired
    simp only [List.foldl]
    cases h1 : blankField citation "source" <;>
      cases h2 : blankField citation "url" <;>
        cases h3 : blankField citation "date_accessed" <;>
          simp [h1, h2, h3, h]
  obtain ⟨hv, hm⟩ := hreq
  cases hu : getKey citation "url" <;>
    simp [SourceValidator.validate_citation, hu, hv, hm]

/-- C10 witness: a citation with the documented keys, including `"claim"`
without the trailing space and a URL on the allow list, is still invalid
and reports `"claim "` as missing. -/
theorem C10_witness :
    (SourceValidator.validate_citation
      [("source", "IEEE"), ("url", "https://www.ieee.org/adas"),
       ("date_accessed", "2024-01-01"), ("claim", "ADAS compute demand grows")]).valid = false
    ∧ "claim " ∈ (SourceValidator.validate_citation
      [("source", "IEEE"), ("url", "https://www.ieee.org/adas"),
       ("date_accessed", "2024-01-01"), ("claim", "ADAS compute demand grows")]).missing_fields :=
  C10_claim_field_trailing_space _ (by decide)

end Adas
